import Mathlib

/-!
Verification of the statement-coordination layer of openGemini's ts-sql node
(`app/ts-sql/sql/server.go`), as a shallow embedding.

Errors are modelled by their classification bits: every control-flow decision
in the source inspects an error only through the predicates below
(`coordinator.IsRetriedError`, substring tests on `err.Error()`,
`errno.Equal(err, errno.ErrQueryNotFound)`, ...), so an error value is
represented by the tuple of those test outcomes.
-/

set_option maxRecDepth 4096

/-- Model of a Go `error` value, by the outcome of each classification test the
source applies to it.  Field comments name the exact test from `server.go`. -/
structure Err where
  /-- `coordinator.IsRetriedError(err)` -/
  isRetried : Bool := false
  /-- `strings.Contains(err.Error(), "repeat mark delete")` -/
  repeatMarkDelete : Bool := false
  /-- `strings.Contains(err.Error(), "max message size")` -/
  maxMessageSize : Bool := false
  /-- `strings.Contains(err.Error(), "declare empty collection")` -/
  declareEmptyColl : Bool := false
  /-- `err == influxql.ErrDeclareEmptyCollection` -/
  isDeclareEmptyCollErr : Bool := false
  /-- `coordinator.IsRetryErrorForPtView(err)` -/
  retryPtView : Bool := false
  /-- `errors.As(err, &wrapErr) && errno.Equal(wrapErr, errno.ErrQueryNotFound)` -/
  queryNotFound : Bool := false
  /-- `strings.HasPrefix(err.Error(), "database not found")` -/
  dbNotFound : Bool := false
  /-- the fixed `meta2.ErrUnsupportCommand` error -/
  unsupported : Bool := false
  /-- the cancellation error `ctx.Err()` -/
  cancelled : Bool := false
  deriving DecidableEq, Repr

/-- The error returned by `ctx.Err()` when the execution context is cancelled. -/
def cancelledErr : Err := { cancelled := true }

/-- Model of `models.Row`. -/
structure ModelsRow where
  name : String := ""
  values : List (List String) := []
  deriving DecidableEq, Repr

/-- Model of `query.Result` as sent to the sink: the `Series` field and the
`Partial` flag.  (`ctx.Send` is modelled as reliable; a failed send returns an
error and aborts, which only strengthens the error cases we reason about.) -/
structure QResult where
  series : List ModelsRow := []
  partFlag : Bool := false
  deriving DecidableEq, Repr

/-- The empty result `&query.Result{Series: make([]*models.Row, 0)}`. -/
def emptyResult : QResult := {}

/-- Model of one value received on the row-batch channel (`query2.RowsChan`). -/
structure RowsChan where
  rows : List ModelsRow
  partFlag : Bool
  deriving DecidableEq, Repr

/-- Model of a constructed `*executor.PipelineExecutor` together with the
behaviour of its asynchronous execution: the row batches it pushes into the
channel before closing it, and the completion error it writes to `ec`. -/
structure PipelineExec where
  batches : List RowsChan
  execErr : Option Err
  deriving DecidableEq, Repr

/-- Outcome of `executeSelectStatement`: the sequence of Results sent to the
sink, and the returned error (`none` = returned `nil`). -/
structure SelectOutcome where
  sent : List QResult
  err : Option Err
  deriving DecidableEq, Repr

/-- The receive loop of `executeSelectStatement` (the `for { select ... } }`)
over the batch channel.  `cancelAt = some k` means `ctx.Done()` wins the select
race after `k` batches have been received; `none` means cancellation never
fires.  Returns the Results sent and the error of an early `return`. -/
def runSelectLoop : List RowsChan → Option Nat → List QResult × Option Err
  | _, some 0 => ([], some cancelledErr)
  | [], _ => ([], none)
  | b :: bs, c =>
    let rest := runSelectLoop bs (c.map (· - 1))
    (⟨b.rows, b.partFlag⟩ :: rest.1, rest.2)

/-- `executeSelectStatement` (server.go:1562-1651), given the outcome `pe` of
`retryCreatePipelineExecutor` (`.ok none` models the `pipelineExecutor == nil`
return, i.e. the empty-collection / recovered-panic case). -/
def executeSelectStatement (pe : Except Err (Option PipelineExec))
    (cancelAt : Option Nat) : SelectOutcome :=
  match pe with
  | .error e =>
    -- `if err == influxql.ErrDeclareEmptyCollection { err = nil; pipelineExecutor = nil }`
    if e.isDeclareEmptyCollErr then { sent := [emptyResult], err := none }
    else { sent := [], err := some e }
  | .ok none => { sent := [emptyResult], err := none }
  | .ok (some ex) =>
    let res := runSelectLoop ex.batches cancelAt
    match res.2 with
    | some e => { sent := res.1, err := some e }
    | none =>
      match ex.execErr with
      | some e => { sent := res.1, err := some e }
      | none =>
        -- `if !emitted { return ctx.Send(&query.Result{Series: ...}, seq) }`
        if res.1.isEmpty then { sent := [emptyResult], err := none }
        else { sent := res.1, err := none }

theorem runSelectLoop_nil (c : Option Nat) :
    runSelectLoop [] c = ([], if c = some 0 then some cancelledErr else none) := by
  match c with
  | none => rfl
  | some 0 => rfl
  | some (k + 1) => simp [runSelectLoop]

theorem runSelectLoop_none_eq (bs : List RowsChan) :
    runSelectLoop bs none = (bs.map fun b => ⟨b.rows, b.partFlag⟩, none) := by
  induction bs with
  | nil => rfl
  | cons b bs ih => simp [runSelectLoop, ih]

/-- Claim C1: every error-free execution of a SELECT sends at least one Result:
an empty pipeline collection sends exactly one empty Result, and an execution
that completes with zero emitted batches sends exactly one empty Result. -/
theorem executeSelect_always_emits (pe : Except Err (Option PipelineExec))
    (cancelAt : Option Nat) :
    ((executeSelectStatement pe cancelAt).err = none →
      1 ≤ (executeSelectStatement pe cancelAt).sent.length) ∧
    (pe = .ok none →
      executeSelectStatement pe cancelAt = { sent := [emptyResult], err := none }) ∧
    (∀ e, pe = .error e → e.isDeclareEmptyCollErr = true →
      executeSelectStatement pe cancelAt = { sent := [emptyResult], err := none }) ∧
    (∀ ex, pe = .ok (some ex) → ex.batches = [] →
      (executeSelectStatement pe cancelAt).err = none →
      (executeSelectStatement pe cancelAt).sent = [emptyResult]) := by
  refine ⟨?_, ?_, ?_, ?_⟩
  · intro h
    match pe with
    | .error e =>
      by_cases hd : e.isDeclareEmptyCollErr = true
      · simp [executeSelectStatement, hd]
      · simp [executeSelectStatement, hd] at h
    | .ok none => simp [executeSelectStatement]
    | .ok (some ex) =>
      simp only [executeSelectStatement] at h ⊢
      rcases hres : (runSelectLoop ex.batches cancelAt).2 with _ | e
      · rcases hexec : ex.execErr with _ | e
        · by_cases hemp : (runSelectLoop ex.batches cancelAt).1.isEmpty
          · simp [hres, hexec, hemp]
          · simp only [hres, hexec, hemp]
            simp only [Bool.not_eq_true, List.isEmpty_eq_false_iff_exists_mem] at hemp
            rcases hemp with ⟨x, hx⟩
            exact Nat.one_le_iff_ne_zero.mpr
              (by simpa using (List.length_pos_of_mem hx).ne')
        · simp [hres, hexec] at h
      · simp [hres] at h
  · rintro rfl
    simp [executeSelectStatement]
  · rintro e rfl hd
    simp [executeSelectStatement, hd]
  · rintro ex rfl hb
    simp only [executeSelectStatement, hb, runSelectLoop_nil]
    by_cases hc : cancelAt = some 0
    · simp [hc]
    · rcases hexec : ex.execErr with _ | e <;> simp [hc, hexec]

theorem executeSelect_always_emits_witness :
    executeSelectStatement (.ok none) none = { sent := [emptyResult], err := none } :=
  (executeSelect_always_emits (.ok none) none).2.1 rfl

/-- `coordinator.IsRetriedError(err) || strings.Contains(err.Error(), "repeat mark delete")`:
the retry condition of `retryExecuteStatement` (server.go:1037). -/
def isRetryableDML (e : Err) : Bool := e.isRetried || e.repeatMarkDelete

/-- Outcome of one run of the DML retry loop: how many calls to the
per-statement executor were made, how many `time.Sleep` calls happened, and
the final returned error (`none` = success). -/
structure RetryOutcome where
  attempts : Nat
  sleeps : Nat
  err : Option Err
  deriving DecidableEq, Repr

/-- The loop body of `retryExecuteStatement` (server.go:987-1046), with wall
clock made explicit: `elapsed` is milliseconds since `startTime`, each sleep
adds `intervalMs` (`coordinator.DMLRetryInternalMillisecond`), the attempts
themselves are counted as instantaneous (the worst case for termination), and
`timeoutMs` is `coordinator.DMLTimeOutSecond` in milliseconds.  `attempt i` is
the error of the `(i+1)`-th call of the inner `switch`.  `fuel` bounds the
recursion; `none` is returned iff the fuel runs out (the termination theorem
shows enough fuel always exists). -/
def retryDMLAux (attempt : Nat → Option Err) (timeoutMs intervalMs : Nat) :
    Nat → Nat → Nat → Nat → Option Err → Option RetryOutcome
  | 0, _, _, _, _ => none
  | fuel + 1, elapsed, retryNum, sleepCnt, lastErr =>
    if elapsed < timeoutMs then
      -- `if retryNum > 0 { time.Sleep(...) }; retryNum++`
      let elapsed' := if 0 < retryNum then elapsed + intervalMs else elapsed
      let sleepCnt' := if 0 < retryNum then sleepCnt + 1 else sleepCnt
      match attempt retryNum with
      | none => some ⟨retryNum + 1, sleepCnt', none⟩
      | some e =>
        if isRetryableDML e then
          retryDMLAux attempt timeoutMs intervalMs fuel elapsed' (retryNum + 1)
            sleepCnt' (some e)
        else some ⟨retryNum + 1, sleepCnt', some e⟩
    else some ⟨retryNum, sleepCnt, lastErr⟩

/-- `retryExecuteStatement`, run with enough fuel for its wall-clock budget. -/
def retryExecuteStatement (attempt : Nat → Option Err) (timeoutMs intervalMs : Nat) :
    Option RetryOutcome :=
  retryDMLAux attempt timeoutMs intervalMs (timeoutMs + 2) 0 0 0 none

/-- `coordinator.IsRetriedError(err) || strings.Contains(err.Error(), "max message size")`:
the retry condition of `retryCreatePipelineExecutor` (server.go:1540). -/
def isRetryableCreate (e : Err) : Bool := e.isRetried || e.maxMessageSize

/-- The loop of `retryCreatePipelineExecutor` (server.go:1531-1560).
`create i` is the outcome of the `(i+1)`-th `createPipelineExecutor` call
(`.ok none` models a nil executor returned without error, e.g. after a
recovered panic).  On a retryable error it sleeps and retries while the
wall-clock budget lasts; on "declare empty collection" it returns
`(nil, nil)`; any other error is returned as-is. -/
def retryCreatePEAux (create : Nat → Except Err (Option PipelineExec))
    (timeoutMs intervalMs : Nat) :
    Nat → Nat → Nat → Option (Except Err (Option PipelineExec))
  | 0, _, _ => none
  | fuel + 1, elapsed, i =>
    match create i with
    | .ok p => some (.ok p)
    | .error e =>
      if isRetryableCreate e then
        if elapsed < timeoutMs then
          retryCreatePEAux create timeoutMs intervalMs fuel (elapsed + intervalMs) (i + 1)
        else some (.error e)
      else if e.declareEmptyColl then some (.ok none)
      else some (.error e)

/-- `retryCreatePipelineExecutor`, run with enough fuel for its budget. -/
def retryCreatePipelineExecutor (create : Nat → Except Err (Option PipelineExec))
    (timeoutMs intervalMs : Nat) : Option (Except Err (Option PipelineExec)) :=
  retryCreatePEAux create timeoutMs intervalMs (timeoutMs + 1) 0 0

/-- Claim C2: a non-retryable error from the first attempt is returned after
exactly one executor call, with no sleep and no further attempt. -/
theorem retryExecuteStatement_first_nonretryable
    (attempt : Nat → Option Err) (timeoutMs intervalMs : Nat) (e : Err)
    (htimeout : 0 < timeoutMs)
    (h0 : attempt 0 = some e) (hnr : isRetryableDML e = false) :
    retryExecuteStatement attempt timeoutMs intervalMs =
      some ⟨1, 0, some e⟩ := by
  simp [retryExecuteStatement, retryDMLAux, htimeout, h0, hnr]

theorem retryExecuteStatement_first_nonretryable_witness :
    retryExecuteStatement (fun _ => some { dbNotFound := true }) 1000 100 =
      some ⟨1, 0, some { dbNotFound := true }⟩ :=
  retryExecuteStatement_first_nonretryable _ 1000 100 _ (by decide) rfl rfl

theorem retryDMLAux_succ (attempt : Nat → Option Err)
    (timeoutMs intervalMs fuel elapsed retryNum sleepCnt : Nat) (lastErr : Option Err) :
    retryDMLAux attempt timeoutMs intervalMs (fuel + 1) elapsed retryNum sleepCnt lastErr =
      if elapsed < timeoutMs then
        match attempt retryNum with
        | none => some ⟨retryNum + 1, if 0 < retryNum then sleepCnt + 1 else sleepCnt, none⟩
        | some e =>
          if isRetryableDML e then
            retryDMLAux attempt timeoutMs intervalMs fuel
              (if 0 < retryNum then elapsed + intervalMs else elapsed) (retryNum + 1)
              (if 0 < retryNum then sleepCnt + 1 else sleepCnt) (some e)
          else some ⟨retryNum + 1, if 0 < retryNum then sleepCnt + 1 else sleepCnt, some e⟩
      else some ⟨retryNum, sleepCnt, lastErr⟩ := rfl

theorem retryDMLAux_isSome (attempt : Nat → Option Err) (timeoutMs intervalMs : Nat) :
    ∀ fuel elapsed retryNum sleepCnt lastErr, 1 ≤ retryNum →
      timeoutMs ≤ elapsed + fuel * intervalMs →
      (retryDMLAux attempt timeoutMs intervalMs (fuel + 1) elapsed retryNum sleepCnt
        lastErr).isSome = true := by
  intro fuel
  induction fuel with
  | zero =>
    intro elapsed retryNum sleepCnt lastErr hr hb
    have hlt : ¬ elapsed < timeoutMs := by omega
    simp [retryDMLAux, hlt]
  | succ fuel ih =>
    intro elapsed retryNum sleepCnt lastErr hr hb
    simp only [retryDMLAux]
    by_cases hlt : elapsed < timeoutMs
    · have hr' : 0 < retryNum := hr
      rcases hA : attempt retryNum with _ | e
      · simp [hlt, hA]
      · by_cases hret : isRetryableDML e
        · simp only [hlt, if_true, hA, hret, if_pos hr']
          refine ih (elapsed + intervalMs) (retryNum + 1) _ _ (by omega) ?_
          rw [Nat.succ_mul] at hb
          omega
        · simp [hlt, hA, hret]
    · simp [hlt]

theorem retryCreatePEAux_isSome (create : Nat → Except Err (Option PipelineExec))
    (timeoutMs intervalMs : Nat) :
    ∀ fuel elapsed i, timeoutMs ≤ elapsed + fuel * intervalMs →
      (retryCreatePEAux create timeoutMs intervalMs (fuel + 1) elapsed i).isSome = true := by
  intro fuel
  induction fuel with
  | zero =>
    intro elapsed i hb
    have hlt : ¬ elapsed < timeoutMs := by omega
    rcases hC : create i with e | p
    · by_cases hret : isRetryableCreate e
      · simp [retryCreatePEAux, hC, hret, hlt]
      · by_cases hd : e.declareEmptyColl <;>
          simp [retryCreatePEAux, hC, hret, hlt, hd]
    · simp [retryCreatePEAux, hC]
  | succ fuel ih =>
    intro elapsed i hb
    simp only [retryCreatePEAux]
    rcases hC : create i with e | p
    · by_cases hret : isRetryableCreate e
      · by_cases hlt : elapsed < timeoutMs
        · simp only [hret, hlt, if_true]
          refine ih (elapsed + intervalMs) (i + 1) ?_
          rw [Nat.succ_mul] at hb
          omega
        · simp [hret, hlt]
      · simp only [hret, Bool.false_eq_true, if_false]
        split <;> simp
    · simp

theorem retryDMLAux_exhaust (attempt : Nat → Option Err) (timeoutMs intervalMs : Nat)
    (hall : ∀ k, ∃ e, attempt k = some e ∧ isRetryableDML e = true) :
    ∀ fuel elapsed retryNum sleepCnt, 1 ≤ retryNum →
      ∀ out, retryDMLAux attempt timeoutMs intervalMs fuel elapsed retryNum sleepCnt
          (attempt (retryNum - 1)) = some out →
        ∃ n s, retryNum ≤ n ∧ out = ⟨n, s, attempt (n - 1)⟩ := by
  intro fuel
  induction fuel with
  | zero =>
    intro _ _ _ _ out h
    simp [retryDMLAux] at h
  | succ fuel ih =>
    intro elapsed retryNum sleepCnt hr out h
    simp only [retryDMLAux] at h
    by_cases hlt : elapsed < timeoutMs
    · rw [if_pos hlt] at h
      obtain ⟨e, hA, hret⟩ := hall retryNum
      rw [hA] at h
      simp only [hret, if_true, if_pos (show 0 < retryNum from hr)] at h
      have h' : retryDMLAux attempt timeoutMs intervalMs fuel (elapsed + intervalMs)
          (retryNum + 1) (sleepCnt + 1) (attempt (retryNum + 1 - 1)) = some out := by
        rw [Nat.add_sub_cancel, hA]
        exact h
      obtain ⟨n, s, hn, ho⟩ := ih (elapsed + intervalMs) (retryNum + 1) (sleepCnt + 1)
        (by omega) out h'
      exact ⟨n, s, by omega, ho⟩
    · rw [if_neg hlt] at h
      exact ⟨retryNum, sleepCnt, Nat.le_refl _, (Option.some_inj.mp h).symm⟩

theorem retryCreatePEAux_succ (create : Nat → Except Err (Option PipelineExec))
    (timeoutMs intervalMs fuel elapsed i : Nat) :
    retryCreatePEAux create timeoutMs intervalMs (fuel + 1) elapsed i =
      match create i with
      | .ok p => some (.ok p)
      | .error e =>
        if isRetryableCreate e then
          if elapsed < timeoutMs then
            retryCreatePEAux create timeoutMs intervalMs fuel (elapsed + intervalMs) (i + 1)
          else some (.error e)
        else if e.declareEmptyColl then some (.ok none)
        else some (.error e) := rfl

theorem retryCreatePEAux_exhaust (create : Nat → Except Err (Option PipelineExec))
    (timeoutMs intervalMs : Nat)
    (hall : ∀ k, ∃ e, create k = .error e ∧ isRetryableCreate e = true) :
    ∀ fuel elapsed i, elapsed = i * intervalMs →
      timeoutMs ≤ elapsed + fuel * intervalMs →
      ∃ n e, timeoutMs ≤ n * intervalMs ∧
        (∀ m, i ≤ m → m < n → m * intervalMs < timeoutMs) ∧ i ≤ n ∧
        create n = .error e ∧
        retryCreatePEAux create timeoutMs intervalMs (fuel + 1) elapsed i =
          some (.error e) := by
  intro fuel
  induction fuel with
  | zero =>
    intro elapsed i helap hb
    obtain ⟨e, hC, hret⟩ := hall i
    have hlt : ¬ elapsed < timeoutMs := by omega
    refine ⟨i, e, by omega, ?_, Nat.le_refl i, hC, ?_⟩
    · intro m h1 h2
      omega
    · simp [retryCreatePEAux_succ, hC, hret, hlt]
  | succ fuel ih =>
    intro elapsed i helap hb
    obtain ⟨e, hC, hret⟩ := hall i
    by_cases hlt : elapsed < timeoutMs
    · have helap' : elapsed + intervalMs = (i + 1) * intervalMs := by
        rw [Nat.succ_mul, helap]
      have hb' : timeoutMs ≤ (elapsed + intervalMs) + fuel * intervalMs := by
        rw [Nat.succ_mul] at hb
        omega
      obtain ⟨n, e', hn, hmon, hin, hCn, heq⟩ :=
        ih (elapsed + intervalMs) (i + 1) helap' hb'
      refine ⟨n, e', hn, ?_, by omega, hCn, ?_⟩
      · intro m him hmn
        rcases Nat.eq_or_lt_of_le him with rfl | him'
        · omega
        · exact hmon m him' hmn
      · rw [show fuel + 1 + 1 = (fuel + 1) + 1 from rfl, retryCreatePEAux_succ]
        simp only [hC, hret, if_true, hlt]
        exact heq
    · refine ⟨i, e, by omega, ?_, Nat.le_refl i, hC, ?_⟩
      · intro m h1 h2
        omega
      · simp [retryCreatePEAux_succ, hC, hret, hlt]

/-- Claim C3: both retry loops terminate — `retryExecuteStatement` and
`retryCreatePipelineExecutor` always produce an answer within their wall-clock
budget (the fuel bound derived from the budget is never exhausted, given a
positive sleep interval); and when every attempt fails retryably, each loop
exits on budget exhaustion returning the error of the last attempt it made
(for `retryCreatePipelineExecutor` the last attempt is the first index `n`
whose elapsed sleep time `n * intervalMs` meets the budget). -/
theorem retry_loops_terminate (timeoutMs intervalMs : Nat) (hI : 1 ≤ intervalMs) :
    (∀ attempt, (retryExecuteStatement attempt timeoutMs intervalMs).isSome = true) ∧
    (∀ create, (retryCreatePipelineExecutor create timeoutMs intervalMs).isSome = true) ∧
    (∀ attempt, 0 < timeoutMs →
      (∀ k, ∃ e, attempt k = some e ∧ isRetryableDML e = true) →
      ∃ n s, 1 ≤ n ∧ retryExecuteStatement attempt timeoutMs intervalMs =
        some ⟨n, s, attempt (n - 1)⟩) ∧
    (∀ create, (∀ k, ∃ e, create k = .error e ∧ isRetryableCreate e = true) →
      ∃ n e, timeoutMs ≤ n * intervalMs ∧ (∀ m < n, m * intervalMs < timeoutMs) ∧
        create n = .error e ∧
        retryCreatePipelineExecutor create timeoutMs intervalMs =
          some (.error e)) := by
  have hmul : timeoutMs ≤ timeoutMs * intervalMs := by
    simpa using Nat.mul_le_mul_left timeoutMs hI
  refine ⟨?_, ?_, ?_, ?_⟩
  · intro attempt
    rw [retryExecuteStatement, show timeoutMs + 2 = (timeoutMs + 1) + 1 from rfl,
      retryDMLAux_succ]
    by_cases h0 : (0 : Nat) < timeoutMs
    · rw [if_pos h0]
      rcases hA : attempt 0 with _ | e
      · simp [hA]
      · by_cases hret : isRetryableDML e
        · simp only [hA, hret, if_true, lt_self_iff_false, if_false]
          exact retryDMLAux_isSome attempt timeoutMs intervalMs timeoutMs 0 1 0 (some e)
            (Nat.le_refl 1) (by omega)
        · simp [hA, hret]
    · rw [if_neg h0]
      rfl
  · intro create
    rw [retryCreatePipelineExecutor]
    exact retryCreatePEAux_isSome create timeoutMs intervalMs timeoutMs 0 0 (by omega)
  · intro attempt h0 hall
    obtain ⟨e, hA, hret⟩ := hall 0
    have hsome := retryDMLAux_isSome attempt timeoutMs intervalMs timeoutMs 0 1 0 (some e)
      (Nat.le_refl 1) (by omega)
    obtain ⟨out, hout⟩ := Option.isSome_iff_exists.mp hsome
    have hstep : retryExecuteStatement attempt timeoutMs intervalMs = some out := by
      rw [retryExecuteStatement, show timeoutMs + 2 = (timeoutMs + 1) + 1 from rfl,
        retryDMLAux_succ, if_pos h0]
      simp only [hA, hret, if_true, lt_self_iff_false, if_false]
      exact hout
    have h' : retryDMLAux attempt timeoutMs intervalMs (timeoutMs + 1) 0 1 0
        (attempt (1 - 1)) = some out := by
      rw [show (1 : Nat) - 1 = 0 from rfl, hA]
      exact hout
    obtain ⟨n, s, hn, ho⟩ := retryDMLAux_exhaust attempt timeoutMs intervalMs hall
      (timeoutMs + 1) 0 1 0 (Nat.le_refl 1) out h'
    exact ⟨n, s, hn, by rw [hstep, ho]⟩
  · intro create hall
    obtain ⟨n, e, hn, hmon, _, hCn, heq⟩ :=
      retryCreatePEAux_exhaust create timeoutMs intervalMs hall timeoutMs 0 0
        (by omega) (by omega)
    refine ⟨n, e, hn, ?_, hCn, ?_⟩
    · intro m hm
      exact hmon m (Nat.zero_le m) hm
    · rw [retryCreatePipelineExecutor]
      exact heq

theorem retry_loops_terminate_witness :
    (retryExecuteStatement (fun _ => some { isRetried := true }) 3 1).isSome = true ∧
    (retryCreatePipelineExecutor (fun _ => .error { isRetried := true }) 3 1).isSome = true ∧
    (∃ n s, 1 ≤ n ∧ retryExecuteStatement (fun _ => some { isRetried := true }) 3 1 =
      some ⟨n, s, (fun _ => some { isRetried := true } : Nat → Option Err) (n - 1)⟩) ∧
    (∃ n e, (3 : Nat) ≤ n * 1 ∧ (∀ m < n, m * 1 < (3 : Nat)) ∧
      (fun _ => (.error { isRetried := true } : Except Err (Option PipelineExec))) n =
        .error e ∧
      retryCreatePipelineExecutor
        (fun _ => .error { isRetried := true }) 3 1 = some (.error e)) :=
  ⟨(retry_loops_terminate 3 1 (by decide)).1 _,
   (retry_loops_terminate 3 1 (by decide)).2.1 _,
   (retry_loops_terminate 3 1 (by decide)).2.2.1 _ (by decide)
     (fun _ => ⟨{ isRetried := true }, rfl, rfl⟩),
   (retry_loops_terminate 3 1 (by decide)).2.2.2 _
     (fun _ => ⟨{ isRetried := true }, rfl, rfl⟩)⟩

/-- `maxRetrySelectCount` (server.go:497). -/
def maxRetrySelectCount : Nat := 8

/-- `retrySelectInterval = time.Millisecond * 100` (server.go:498), in ms. -/
def retrySelectIntervalMs : Nat := 100

/-- Outcome of `retryExecuteSelectStatement`: number of calls made to
`executeSelectStatement`, the sleep durations (ms) in order, and the returned
error. -/
structure SelRetryOutcome where
  attempts : Nat
  sleeps : List Nat
  err : Option Err
  deriving DecidableEq, Repr

/-- The loop `for i := 0; i < maxRetrySelectCount; i++` of
`retryExecuteSelectStatement` (server.go:1518-1529): attempt, break on success
or on a non-pt-view-retryable error, else sleep `retrySelectInterval * (1 << i)`
and continue.  `attempt i` is the error of the call at loop index `i`. -/
def retrySelectAux (attempt : Nat → Option Err) :
    Nat → Nat → SelRetryOutcome → SelRetryOutcome
  | 0, _, acc => acc
  | r + 1, i, acc =>
    match attempt i with
    | none => { attempts := acc.attempts + 1, sleeps := acc.sleeps, err := none }
    | some e =>
      if e.retryPtView then
        retrySelectAux attempt r (i + 1)
          { attempts := acc.attempts + 1,
            sleeps := acc.sleeps ++ [retrySelectIntervalMs * 2 ^ i], err := some e }
      else { attempts := acc.attempts + 1, sleeps := acc.sleeps, err := some e }

/-- `retryExecuteSelectStatement` (server.go:1518-1529). -/
def retryExecuteSelectStatement (attempt : Nat → Option Err) : SelRetryOutcome :=
  retrySelectAux attempt maxRetrySelectCount 0 ⟨0, [], none⟩

theorem retrySelectAux_succ (attempt : Nat → Option Err) (r i : Nat)
    (acc : SelRetryOutcome) :
    retrySelectAux attempt (r + 1) i acc =
      match attempt i with
      | none => { attempts := acc.attempts + 1, sleeps := acc.sleeps, err := none }
      | some e =>
        if e.retryPtView then
          retrySelectAux attempt r (i + 1)
            { attempts := acc.attempts + 1,
              sleeps := acc.sleeps ++ [retrySelectIntervalMs * 2 ^ i], err := some e }
        else { attempts := acc.attempts + 1, sleeps := acc.sleeps, err := some e } := rfl

theorem retrySelectAux_attempts_le (attempt : Nat → Option Err) :
    ∀ r i acc, (retrySelectAux attempt r i acc).attempts ≤ acc.attempts + r := by
  intro r
  induction r with
  | zero =>
    intro i acc
    simp [retrySelectAux]
  | succ r ih =>
    intro i acc
    rw [retrySelectAux_succ]
    rcases hA : attempt i with _ | e
    · simp only
      omega
    · by_cases hret : e.retryPtView
      · simp only [hret, if_true]
        have h := ih (i + 1)
          { attempts := acc.attempts + 1,
            sleeps := acc.sleeps ++ [retrySelectIntervalMs * 2 ^ i], err := some e }
        simp only at h
        omega
      · simp only [hret, Bool.false_eq_true, if_false]
        omega

theorem retrySelectAux_only_retryable (attempt : Nat → Option Err) :
    ∀ r i acc, acc.attempts = i →
      ∀ j, i ≤ j → j + 1 < (retrySelectAux attempt r i acc).attempts →
        ∃ e, attempt j = some e ∧ e.retryPtView = true := by
  intro r
  induction r with
  | zero =>
    intro i acc hacc j hij hj
    simp only [retrySelectAux, hacc] at hj
    omega
  | succ r ih =>
    intro i acc hacc j hij hj
    rw [retrySelectAux_succ] at hj
    rcases hA : attempt i with _ | e
    · simp only [hA, hacc] at hj
      omega
    · by_cases hret : e.retryPtView
      · rcases Nat.eq_or_lt_of_le hij with rfl | hlt
        · exact ⟨e, hA, hret⟩
        · simp only [hA, hret, if_true] at hj
          exact ih (i + 1)
            { attempts := acc.attempts + 1,
              sleeps := acc.sleeps ++ [retrySelectIntervalMs * 2 ^ i], err := some e }
            (by simp [hacc]) j hlt hj
      · simp only [hA, hret, Bool.false_eq_true, if_false, hacc] at hj
        omega

theorem retrySelectAux_sleeps_shape (attempt : Nat → Option Err) :
    ∀ r i acc,
      acc.sleeps = (List.range i).map (fun n => retrySelectIntervalMs * 2 ^ n) →
      ∃ k, (retrySelectAux attempt r i acc).sleeps =
        (List.range k).map (fun n => retrySelectIntervalMs * 2 ^ n) := by
  intro r
  induction r with
  | zero =>
    intro i acc hacc
    exact ⟨i, by simpa [retrySelectAux] using hacc⟩
  | succ r ih =>
    intro i acc hacc
    rw [retrySelectAux_succ]
    rcases hA : attempt i with _ | e
    · exact ⟨i, by simpa using hacc⟩
    · by_cases hret : e.retryPtView
      · simp only [hret, if_true]
        refine ih (i + 1) _ ?_
        simp only [hacc, List.range_succ, List.map_append, List.map_cons, List.map_nil]
      · exact ⟨i, by simpa [hret] using hacc⟩

/-- Claim C8: `retryExecuteSelectStatement` makes at most 8
(`maxRetrySelectCount`) calls to `executeSelectStatement`; it returns after
the first call on success or on a non-pt-view-retryable error (with no sleep);
every attempt that is followed by another one failed with a pt-view-retryable
error; and the sleeps performed are exactly `retrySelectInterval * 2^0,
2^1, ...` — doubling backoff. -/
theorem retryExecuteSelectStatement_spec (attempt : Nat → Option Err) :
    ((retryExecuteSelectStatement attempt).attempts ≤ maxRetrySelectCount) ∧
    (attempt 0 = none →
      retryExecuteSelectStatement attempt = ⟨1, [], none⟩) ∧
    (∀ e, attempt 0 = some e → e.retryPtView = false →
      retryExecuteSelectStatement attempt = ⟨1, [], some e⟩) ∧
    (∀ j, j + 1 < (retryExecuteSelectStatement attempt).attempts →
      ∃ e, attempt j = some e ∧ e.retryPtView = true) ∧
    (∃ k, (retryExecuteSelectStatement attempt).sleeps =
      (List.range k).map fun n => retrySelectIntervalMs * 2 ^ n) := by
  refine ⟨?_, ?_, ?_, ?_, ?_⟩
  · have h := retrySelectAux_attempts_le attempt maxRetrySelectCount 0 ⟨0, [], none⟩
    simpa [retryExecuteSelectStatement] using h
  · intro h0
    rw [retryExecuteSelectStatement,
      show maxRetrySelectCount = 7 + 1 from rfl, retrySelectAux_succ]
    simp [h0]
  · intro e h0 hret
    rw [retryExecuteSelectStatement,
      show maxRetrySelectCount = 7 + 1 from rfl, retrySelectAux_succ]
    simp [h0, hret]
  · intro j hj
    exact retrySelectAux_only_retryable attempt maxRetrySelectCount 0 ⟨0, [], none⟩
      rfl j (Nat.zero_le j) hj
  · exact retrySelectAux_sleeps_shape attempt maxRetrySelectCount 0 ⟨0, [], none⟩
      (by simp)

theorem retryExecuteSelectStatement_spec_witness :
    retryExecuteSelectStatement (fun _ => none) = ⟨1, [], none⟩ :=
  (retryExecuteSelectStatement_spec (fun _ => none)).2.1 rfl

/-- The error `errno.NewError(errno.ErrQueryNotFound, ...)`. -/
def queryNotFoundErr : Err := { queryNotFound := true }

/-- The fixed `meta2.ErrUnsupportCommand` error. -/
def unsupportedCommandErr : Err := { unsupported := true }

/-- Whether a per-node `KillQueryOnNode` response counts towards
`notFoundCount` (server.go:2502-2507): it is an error and
`errno.Equal(wrapErr, errno.ErrQueryNotFound)`. -/
def respNotFound : Option Err → Bool
  | some e => e.queryNotFound
  | none => false

/-- `executeKillQuery` (server.go:2486-2517).  `host` is `stmt.Host`;
`nodesRes` is the `DataNodes()` lookup carrying, per data node, the result of
`KillQueryOnNode` (`none` = node acknowledged the kill). -/
def executeKillQuery (host : String) (nodesRes : Except Err (List (Option Err))) :
    Option Err :=
  if host ≠ "" then some unsupportedCommandErr
  else
    match nodesRes with
    | .error e => some e
    | .ok rs =>
      if (rs.filter respNotFound).length = rs.length then some queryNotFoundErr
      else none

/-- Claim C4: kill-query returns the query-not-found error iff every node
reported query-not-found; one acknowledging node suffices for success, and
nodes that never had the query (reporting not-found) are tolerated. -/
theorem executeKillQuery_spec (rs : List (Option Err)) :
    (executeKillQuery "" (.ok rs) = some queryNotFoundErr ↔
      ∀ r ∈ rs, respNotFound r = true) ∧
    ((∃ r ∈ rs, r = none) → executeKillQuery "" (.ok rs) = none) := by
  constructor
  · constructor
    · intro h
      simp only [executeKillQuery, ne_eq, not_true_eq_false, if_neg] at h
      by_cases hall : (rs.filter respNotFound).length = rs.length
      · exact List.filter_length_eq_length.mp hall
      · simp [hall] at h
    · intro hall
      have : (rs.filter respNotFound).length = rs.length :=
        List.filter_length_eq_length.mpr hall
      simp [executeKillQuery, this]
  · rintro ⟨r, hr, rfl⟩
    have hne : ¬ (rs.filter respNotFound).length = rs.length := by
      intro h
      have := List.filter_length_eq_length.mp h none hr
      simp [respNotFound] at this
    simp [executeKillQuery, hne]

theorem executeKillQuery_spec_witness :
    (executeKillQuery "" (.ok [some queryNotFoundErr, some queryNotFoundErr,
        some queryNotFoundErr]) = some queryNotFoundErr) ∧
    executeKillQuery "" (.ok [none, some queryNotFoundErr, some queryNotFoundErr]) =
      none :=
  ⟨(executeKillQuery_spec [some queryNotFoundErr, some queryNotFoundErr,
      some queryNotFoundErr]).1.mpr (by decide),
   (executeKillQuery_spec [none, some queryNotFoundErr, some queryNotFoundErr]).2
     ⟨none, by decide, rfl⟩⟩

/-- `executeDropDatabaseStatement` (server.go:1354-1369), given the result of
`MetaClient.MarkDatabaseDelete`: an error whose text starts with
"database not found" is swallowed (returns nil). -/
def executeDropDatabaseStatement (markRes : Option Err) : Option Err :=
  match markRes with
  | none => none
  | some e => if e.dbNotFound then none else some e

/-- Model of `*meta2.DatabaseInfo`: the retention policies it holds
(`dbi.RetentionPolicy(name)` is nil iff `name` is not in the list). -/
structure DatabaseInfo where
  rpNames : List String
  deriving DecidableEq, Repr

/-- `executeDropRetentionPolicyStatement` (server.go:1379-1398): `dbi` is the
(possibly nil) `MetaClient.Database` result, `markRes` the result of
`MarkRetentionPolicyDelete`. -/
def executeDropRetentionPolicyStatement (dbi : Option DatabaseInfo) (rpName : String)
    (markRes : Option Err) : Option Err :=
  match dbi with
  | none => none
  | some d => if rpName ∈ d.rpNames then markRes else none

/-- Claim C9: dropping a nonexistent target succeeds — a "database not found"
error from `MarkDatabaseDelete` yields nil, a nil database yields nil for the
retention-policy drop, and a missing retention policy yields nil. -/
theorem drop_nonexistent_is_success :
    (∀ e : Err, e.dbNotFound = true → executeDropDatabaseStatement (some e) = none) ∧
    (∀ rpName markRes, executeDropRetentionPolicyStatement none rpName markRes = none) ∧
    (∀ d rpName markRes, rpName ∉ d.rpNames →
      executeDropRetentionPolicyStatement (some d) rpName markRes = none) := by
  refine ⟨?_, ?_, ?_⟩
  · intro e he
    simp [executeDropDatabaseStatement, he]
  · intro rpName markRes
    simp [executeDropRetentionPolicyStatement]
  · intro d rpName markRes hmem
    simp [executeDropRetentionPolicyStatement, hmem]

theorem drop_nonexistent_is_success_witness :
    executeDropDatabaseStatement (some { dbNotFound := true }) = none ∧
    executeDropRetentionPolicyStatement none "rp" (some { isRetried := true }) = none ∧
    executeDropRetentionPolicyStatement (some ⟨["autogen"]⟩) "rp"
      (some { isRetried := true }) = none :=
  ⟨drop_nonexistent_is_success.1 _ rfl,
   drop_nonexistent_is_success.2.1 "rp" _,
   drop_nonexistent_is_success.2.2 ⟨["autogen"]⟩ "rp" _ (by decide)⟩

/-- `limitStringSlice` (server.go:3153-3164).  `offset` and `limit` are the
(non-negative) statement fields. -/
def limitStringSlice (s : List String) (offset limit : Nat) : List String :=
  if s.length ≤ offset then []
  else
    let endIdx :=
      if limit = 0 ∨ s.length ≤ offset + limit then s.length else offset + limit
    (s.drop offset).take (endIdx - offset)

/-- The `sort.Strings(series)` step of `executeShowSeries`. -/
def sortSeries (series : List String) : List String :=
  List.insertionSort (· ≤ ·) series

/-- `executeShowSeries` (server.go:2163-2216) after the fan-out: `fanout` is
the merged per-node series accumulation (or the fan-out/match error).  Returns
the Results sent to the sink (each modelled by its key list) and the returned
error. -/
def executeShowSeries (fanout : Except Err (List String)) (offset limit : Nat) :
    List (List String) × Option Err :=
  match fanout with
  | .error e => ([], some e)
  | .ok series =>
    let trimmed := limitStringSlice (sortSeries series) offset limit
    if trimmed.length = 0 then ([], none)
    else ([trimmed], none)

/-- Claim C10: when the fan-out succeeds and the sorted, offset/limit-trimmed
series list is empty, `executeShowSeries` returns nil having sent no Result at
all (in particular whenever `offset ≥ len(series)`); a nonempty trimmed list
sends exactly one Result. -/
theorem executeShowSeries_empty_sends_nothing (series : List String)
    (offset limit : Nat) :
    (series.length ≤ offset →
      executeShowSeries (.ok series) offset limit = ([], none)) ∧
    (limitStringSlice (sortSeries series) offset limit = [] →
      executeShowSeries (.ok series) offset limit = ([], none)) ∧
    (limitStringSlice (sortSeries series) offset limit ≠ [] →
      executeShowSeries (.ok series) offset limit =
        ([limitStringSlice (sortSeries series) offset limit], none)) := by
  refine ⟨?_, ?_, ?_⟩
  · intro hlen
    have hs : (sortSeries series).length ≤ offset := by
      have := (List.perm_insertionSort (· ≤ ·) series).length_eq
      rw [sortSeries, this]
      exact hlen
    have htrim : limitStringSlice (sortSeries series) offset limit = [] := by
      simp [limitStringSlice, hs]
    simp [executeShowSeries, htrim]
  · intro htrim
    simp [executeShowSeries, htrim]
  · intro htrim
    have : ¬ (limitStringSlice (sortSeries series) offset limit).length = 0 := by
      simpa [List.length_eq_zero] using htrim
    simp [executeShowSeries, this]

theorem executeShowSeries_empty_sends_nothing_witness :
    executeShowSeries (.ok ["s1", "s2"]) 5 0 = ([], none) :=
  (executeShowSeries_empty_sends_nothing ["s1", "s2"] 5 0).1 (by decide)

/-- One entry of the `otherNodeNamesMap` argument of `MergeMeasurementsNames`,
by what its raw `msg.Result` bytes yield: empty (skipped), a decoded name
list, or a JSON decode failure. -/
inductive MsgResult where
  | empty
  | names (ns : List String)
  | malformed
  deriving DecidableEq, Repr

/-- Whether decoding this message fails. -/
def msgMalformed : MsgResult → Bool
  | .malformed => true
  | _ => false

/-- The names a message contributes to the union. -/
def msgNames : MsgResult → List String
  | .names ns => ns
  | _ => []

/-- The collection loop of `MergeMeasurementsNames` (server.go:2928-2941):
skip empty results, abort on the first decode failure, else concatenate. -/
def collectNames : List MsgResult → Except Unit (List String)
  | [] => .ok []
  | .empty :: rest => collectNames rest
  | .malformed :: _ => .error ()
  | .names ns :: rest => (collectNames rest).map (fun acc => ns ++ acc)

/-- The dedup-through-a-set and `sort.Stable` steps of `MergeMeasurementsNames`
(server.go:2943-2953): the result is the sorted listing of the name set. -/
def sortDedup (l : List String) : List String :=
  List.insertionSort (· ≤ ·) l.dedup

/-- `MergeMeasurementsNames` (server.go:2925-2954), over decoded messages. -/
def MergeMeasurementsNames (msgs : List MsgResult) : Except Unit (List String) :=
  (collectNames msgs).map sortDedup

theorem collectNames_eq (msgs : List MsgResult) :
    collectNames msgs =
      if msgs.any msgMalformed then .error ()
      else .ok (msgs.flatMap msgNames) := by
  induction msgs with
  | nil => rfl
  | cons m rest ih =>
    cases m with
    | empty =>
      rw [show collectNames (.empty :: rest) = collectNames rest from rfl, ih]
      simp [msgMalformed, msgNames]
    | malformed => simp [collectNames, msgMalformed]
    | names ns =>
      rw [show collectNames (.names ns :: rest) =
        (collectNames rest).map (fun acc => ns ++ acc) from rfl, ih]
      by_cases h : rest.any msgMalformed
      · simp [h, msgMalformed, Except.map]
      · simp [h, msgMalformed, msgNames, Except.map]

theorem sortDedup_sorted (l : List String) : (sortDedup l).Sorted (· ≤ ·) :=
  List.sorted_insertionSort _ _

theorem sortDedup_nodup (l : List String) : (sortDedup l).Nodup :=
  (List.perm_insertionSort _ _).nodup_iff.mpr (List.nodup_dedup l)

theorem mem_sortDedup (l : List String) (a : String) : a ∈ sortDedup l ↔ a ∈ l := by
  rw [sortDedup, (List.perm_insertionSort _ _).mem_iff, List.mem_dedup]

theorem sortDedup_eq_of_perm {l1 l2 : List String} (h : List.Perm l1 l2) :
    sortDedup l1 = sortDedup l2 :=
  List.eq_of_perm_of_sorted
    (((List.perm_insertionSort _ _).trans h.dedup).trans
      (List.perm_insertionSort _ _).symm)
    (sortDedup_sorted l1) (sortDedup_sorted l2)

theorem sortDedup_eq_of_mem_iff {l1 l2 : List String} (h : ∀ a, a ∈ l1 ↔ a ∈ l2) :
    sortDedup l1 = sortDedup l2 := by
  refine List.eq_of_perm_of_sorted ?_ (sortDedup_sorted l1) (sortDedup_sorted l2)
  refine List.perm_of_nodup_nodup_toFinset_eq (sortDedup_nodup l1) (sortDedup_nodup l2) ?_
  ext a
  simp only [List.mem_toFinset, mem_sortDedup]
  exact h a

/-- Claim C7: `MergeMeasurementsNames` returns the deduplicated union of all
messages' name lists in sorted ascending order; the result is unchanged under
reordering of the inputs (commutative) and under merging an input with itself
(idempotent). -/
theorem MergeMeasurementsNames_spec :
    (∀ msgs, msgs.any msgMalformed = false →
      ∃ out, MergeMeasurementsNames msgs = .ok out ∧
        out.Sorted (· ≤ ·) ∧ out.Nodup ∧
        (∀ s, s ∈ out ↔ ∃ m ∈ msgs, s ∈ msgNames m)) ∧
    (∀ msgs1 msgs2, List.Perm msgs1 msgs2 →
      MergeMeasurementsNames msgs1 = MergeMeasurementsNames msgs2) ∧
    (∀ msgs, MergeMeasurementsNames (msgs ++ msgs) = MergeMeasurementsNames msgs) := by
  refine ⟨?_, ?_, ?_⟩
  · intro msgs hok
    refine ⟨sortDedup (msgs.flatMap msgNames), ?_, sortDedup_sorted _, sortDedup_nodup _, ?_⟩
    · rw [MergeMeasurementsNames, collectNames_eq, hok]
      rfl
    · intro s
      rw [mem_sortDedup, List.mem_flatMap]
  · intro msgs1 msgs2 h
    have hany : msgs1.any msgMalformed = msgs2.any msgMalformed := by
      rw [Bool.eq_iff_iff, List.any_eq_true, List.any_eq_true]
      exact ⟨fun ⟨m, hm, hp⟩ => ⟨m, h.mem_iff.mp hm, hp⟩,
        fun ⟨m, hm, hp⟩ => ⟨m, h.mem_iff.mpr hm, hp⟩⟩
    rw [MergeMeasurementsNames, MergeMeasurementsNames, collectNames_eq, collectNames_eq,
      hany]
    by_cases hm : msgs2.any msgMalformed
    · simp [hm]
    · simp only [hm, Bool.false_eq_true, if_false, Except.map]
      rw [sortDedup_eq_of_perm (h.flatMap_right msgNames)]
  · intro msgs
    have hany : (msgs ++ msgs).any msgMalformed = msgs.any msgMalformed := by
      simp [List.any_append]
    rw [MergeMeasurementsNames, MergeMeasurementsNames, collectNames_eq, collectNames_eq,
      hany]
    by_cases hm : msgs.any msgMalformed
    · simp [hm]
    · simp only [hm, Bool.false_eq_true, if_false, Except.map]
      rw [sortDedup_eq_of_mem_iff]
      intro a
      simp [List.mem_flatMap, List.mem_append]

theorem MergeMeasurementsNames_spec_witness :
    ∃ out, MergeMeasurementsNames [.names ["b", "a"], .empty, .names ["a", "c"]] =
        .ok out ∧ out.Sorted (· ≤ ·) ∧ out.Nodup ∧
      (∀ s, s ∈ out ↔
        ∃ m ∈ ([.names ["b", "a"], .empty, .names ["a", "c"]] : List MsgResult),
          s ∈ msgNames m) :=
  MergeMeasurementsNames_spec.1 [.names ["b", "a"], .empty, .names ["a", "c"]] rfl

/-- `netstorage.RunStateType` as reported per node (server.go:671-679 handles
exactly these two states). -/
inductive RunState where
  | running
  | killed
  deriving DecidableEq, Repr

/-- Model of `netstorage.QueryExeInfo`: one per-node report. -/
structure QueryExeInfo where
  qid : Nat
  stmt : String
  database : String
  beginTime : Int
  runState : RunState
  deriving DecidableEq, Repr

/-- Model of `combinedQueryExeInfo` (server.go:656-663); the two Go
`map[string]struct{}` host sets are lists without duplicates, in insertion
order. -/
structure CombinedQueryExeInfo where
  qid : Nat
  stmt : String
  database : String
  beginTime : Int
  runningHosts : List String
  killedHosts : List String
  deriving DecidableEq, Repr

/-- Insertion into a Go map-as-set. -/
def insertHost (h : String) (hs : List String) : List String :=
  if h ∈ hs then hs else hs ++ [h]

/-- `updateBeginTime` (server.go:665-669). -/
def updateBeginTime (q : CombinedQueryExeInfo) (newBegin : Int) :
    CombinedQueryExeInfo :=
  if newBegin < q.beginTime then { q with beginTime := newBegin } else q

/-- `updateHosts` (server.go:671-680). -/
def updateHosts (q : CombinedQueryExeInfo) (newHost : String) (rs : RunState) :
    CombinedQueryExeInfo :=
  match rs with
  | .running => { q with runningHosts := insertHost newHost q.runningHosts }
  | .killed => { q with killedHosts := insertHost newHost q.killedHosts }

/-- `getCombinedRunState` (server.go:682-690). -/
inductive CombinedRunState where
  | allRunning
  | partiallyKilled
  | allKilled
  deriving DecidableEq, Repr

def getCombinedRunState (q : CombinedQueryExeInfo) : CombinedRunState :=
  if q.runningHosts.length = 0 then .allKilled
  else if 0 < q.killedHosts.length then .partiallyKilled
  else .allRunning

/-- The `map[uint64]*combinedQueryExeInfo` accumulation map, as an association
list with unique keys. -/
abbrev QMap := List (Nat × CombinedQueryExeInfo)

def qfind : QMap → Nat → Option CombinedQueryExeInfo
  | [], _ => none
  | (k, v) :: rest, q => if k = q then some v else qfind rest q

def qinsert : QMap → Nat → CombinedQueryExeInfo → QMap
  | [], k, v => [(k, v)]
  | (k', v') :: rest, k, v =>
    if k' = k then (k, v) :: rest else (k', v') :: qinsert rest k v

/-- The `newCmbInfo` creation in `combineQueryExeInfos` (server.go:2472-2482). -/
def newCombined (info : QueryExeInfo) (host : String) : CombinedQueryExeInfo :=
  updateHosts ⟨info.qid, info.stmt, info.database, info.beginTime, [], []⟩
    host info.runState

/-- One iteration of the loop of `combineQueryExeInfos` (server.go:2455-2484):
fold a single per-node report into the map. -/
def combineStep (m : QMap) (info : QueryExeInfo) (host : String) : QMap :=
  match qfind m info.qid with
  | some cmb =>
    if cmb.stmt = info.stmt then
      qinsert m info.qid
        (updateHosts (updateBeginTime cmb info.beginTime) host info.runState)
    else if info.beginTime ≤ cmb.beginTime then m
    else qinsert m info.qid (newCombined info host)
  | none => qinsert m info.qid (newCombined info host)

/-- `combineQueryExeInfos` (server.go:2455-2484). -/
def combineQueryExeInfos (m : QMap) (infos : List QueryExeInfo) (host : String) :
    QMap :=
  infos.foldl (fun acc i => combineStep acc i host) m

/-- The combining pass of `executeShowQueriesStatement` (server.go:2416-2418):
fold each node's report list into the shared map, node by node. -/
def combineAllNodes (batches : List (String × List QueryExeInfo)) : QMap :=
  batches.foldl (fun acc b => combineQueryExeInfos acc b.2 b.1) []

/-- All (host, report) pairs of the per-node batches, in fold order. -/
def hostPairs (batches : List (String × List QueryExeInfo)) :
    List (String × QueryExeInfo) :=
  batches.flatMap (fun b => b.2.map (fun i => (b.1, i)))

theorem qfind_qinsert_self (m : QMap) (k : Nat) (v : CombinedQueryExeInfo) :
    qfind (qinsert m k v) k = some v := by
  induction m with
  | nil => simp [qinsert, qfind]
  | cons kv rest ih =>
    obtain ⟨k', v'⟩ := kv
    by_cases hk : k' = k
    · simp [qinsert, hk, qfind]
    · simp [qinsert, hk, qfind, ih]

theorem combineQueryExeInfos_eq_foldl (infos : List QueryExeInfo) (host : String) :
    ∀ m, combineQueryExeInfos m infos host =
      (infos.map (fun i => (host, i))).foldl (fun m p => combineStep m p.2 p.1) m := by
  induction infos with
  | nil => intro m; rfl
  | cons i rest ih =>
    intro m
    simp only [combineQueryExeInfos, List.foldl_cons, List.map_cons] at ih ⊢
    exact ih (combineStep m i host)

theorem combineAllNodes_eq_foldPairs (batches : List (String × List QueryExeInfo)) :
    combineAllNodes batches =
      (hostPairs batches).foldl (fun m p => combineStep m p.2 p.1) [] := by
  rw [combineAllNodes, hostPairs]
  generalize ([] : QMap) = m
  induction batches generalizing m with
  | nil => rfl
  | cons b rest ih =>
    simp only [List.foldl_cons, List.flatMap_cons, List.foldl_append]
    rw [ih, combineQueryExeInfos_eq_foldl]

theorem updateHosts_beginTime (q : CombinedQueryExeInfo) (h : String) (rs : RunState) :
    (updateHosts q h rs).beginTime = q.beginTime := by
  cases rs <;> rfl

theorem updateHosts_stmt (q : CombinedQueryExeInfo) (h : String) (rs : RunState) :
    (updateHosts q h rs).stmt = q.stmt := by
  cases rs <;> rfl

theorem updateBeginTime_stmt (q : CombinedQueryExeInfo) (t : Int) :
    (updateBeginTime q t).stmt = q.stmt := by
  rw [updateBeginTime]
  split <;> rfl

theorem updateBeginTime_le (q : CombinedQueryExeInfo) (t : Int) :
    (updateBeginTime q t).beginTime ≤ q.beginTime ∧
    (updateBeginTime q t).beginTime ≤ t ∧
    ((updateBeginTime q t).beginTime = q.beginTime ∨
      (updateBeginTime q t).beginTime = t) := by
  rw [updateBeginTime]
  split
  · simp_all
    omega
  · simp_all

theorem foldPairs_invariant (qid : Nat) (s : String) :
    ∀ (ps : List (String × QueryExeInfo)),
      (∀ p ∈ ps, p.2.qid = qid ∧ p.2.stmt = s) →
      ∀ m cmb0, qfind m qid = some cmb0 → cmb0.stmt = s →
      ∃ cmb, qfind (ps.foldl (fun m p => combineStep m p.2 p.1) m) qid = some cmb ∧
        cmb.stmt = s ∧
        (cmb.beginTime = cmb0.beginTime ∨
          cmb.beginTime ∈ ps.map (fun p => p.2.beginTime)) ∧
        cmb.beginTime ≤ cmb0.beginTime ∧
        ∀ t ∈ ps.map (fun p => p.2.beginTime), cmb.beginTime ≤ t := by
  intro ps
  induction ps with
  | nil =>
    intro _ m cmb0 hfind hstmt
    exact ⟨cmb0, hfind, hstmt, Or.inl rfl, le_refl _, by simp⟩
  | cons p rest ih =>
    intro hall m cmb0 hfind hstmt
    obtain ⟨hq, hs⟩ := hall p (List.mem_cons_self p rest)
    have hstep : combineStep m p.2 p.1 =
        qinsert m qid
          (updateHosts (updateBeginTime cmb0 p.2.beginTime) p.1 p.2.runState) := by
      simp [combineStep, hq, hfind, hstmt, hs]
    set v := updateHosts (updateBeginTime cmb0 p.2.beginTime) p.1 p.2.runState with hv
    have hvfind : qfind (combineStep m p.2 p.1) qid = some v := by
      rw [hstep]
      exact qfind_qinsert_self m qid v
    have hvstmt : v.stmt = s := by
      rw [hv, updateHosts_stmt, updateBeginTime_stmt, hstmt]
    have hvbt : v.beginTime = (updateBeginTime cmb0 p.2.beginTime).beginTime := by
      rw [hv, updateHosts_beginTime]
    obtain ⟨hle0, hlep, heq⟩ := updateBeginTime_le cmb0 p.2.beginTime
    obtain ⟨cmb, hcfind, hcstmt, hcmem, hcle, hclb⟩ :=
      ih (fun x hx => hall x (List.mem_cons_of_mem p hx))
        (combineStep m p.2 p.1) v hvfind hvstmt
    refine ⟨cmb, by simpa using hcfind, hcstmt, ?_, ?_, ?_⟩
    · rcases hcmem with hcv | hcr
      · rcases heq with hq0 | hqp
        · exact Or.inl (by rw [hcv, hvbt, hq0])
        · exact Or.inr (by simp only [List.map_cons, List.mem_cons]
                           exact Or.inl (by rw [hcv, hvbt, hqp]))
      · exact Or.inr (by simp only [List.map_cons, List.mem_cons]
                         exact Or.inr hcr)
    · exact le_trans hcle (by rw [hvbt]; exact hle0)
    · intro t ht
      simp only [List.map_cons, List.mem_cons] at ht
      rcases ht with rfl | ht
      · exact le_trans hcle (by rw [hvbt]; exact hlep)
      · exact hclb t ht

/-- Claim C6: `updateBeginTime` never increases the begin time, and for any
sequence of per-node report batches all carrying query id `qid` and statement
text `s`, the combined entry's `beginTime` is the earliest begin time among
all folded reports (it is one of the reported times and a lower bound of all
of them). -/
theorem combine_beginTime_earliest (batches : List (String × List QueryExeInfo))
    (qid : Nat) (s : String)
    (hall : ∀ p ∈ hostPairs batches, p.2.qid = qid ∧ p.2.stmt = s)
    (hne : hostPairs batches ≠ []) :
    (∀ q t, (updateBeginTime q t).beginTime ≤ q.beginTime ∧
      (updateBeginTime q t).beginTime ≤ t) ∧
    ∃ cmb, qfind (combineAllNodes batches) qid = some cmb ∧
      cmb.beginTime ∈ (hostPairs batches).map (fun p => p.2.beginTime) ∧
      ∀ t ∈ (hostPairs batches).map (fun p => p.2.beginTime), cmb.beginTime ≤ t := by
  constructor
  · intro q t
    exact ⟨(updateBeginTime_le q t).1, (updateBeginTime_le q t).2.1⟩
  rw [combineAllNodes_eq_foldPairs]
  obtain ⟨p0, rest, hps⟩ := List.exists_cons_of_ne_nil hne
  obtain ⟨hq0, hs0⟩ := hall p0 (by rw [hps]; exact List.mem_cons_self p0 rest)
  rw [hps]
  simp only [List.foldl_cons]
  have hstep : combineStep [] p0.2 p0.1 = qinsert [] p0.2.qid (newCombined p0.2 p0.1) := by
    rw [combineStep]
    rfl
  set v0 := newCombined p0.2 p0.1 with hv0
  have hfind0 : qfind (combineStep [] p0.2 p0.1) qid = some v0 := by
    rw [hstep, hq0]
    exact qfind_qinsert_self [] qid v0
  have hv0stmt : v0.stmt = s := by
    rw [hv0, newCombined, updateHosts_stmt, ← hs0]
  have hv0bt : v0.beginTime = p0.2.beginTime := by
    rw [hv0, newCombined, updateHosts_beginTime]
  obtain ⟨cmb, hcfind, _, hcmem, hcle, hclb⟩ :=
    foldPairs_invariant qid s rest
      (fun x hx => hall x (by rw [hps]; exact List.mem_cons_of_mem p0 hx))
      (combineStep [] p0.2 p0.1) v0 hfind0 hv0stmt
  refine ⟨cmb, hcfind, ?_, ?_⟩
  · rcases hcmem with hcv | hcr
    · simp only [List.map_cons, List.mem_cons]
      exact Or.inl (by rw [hcv, hv0bt])
    · simp only [List.map_cons, List.mem_cons]
      exact Or.inr hcr
  · intro t ht
    simp only [List.map_cons, List.mem_cons] at ht
    rcases ht with rfl | ht
    · exact le_trans hcle (le_of_eq hv0bt)
    · exact hclb t ht

theorem combine_beginTime_earliest_witness :
    ∃ cmb,
      qfind (combineAllNodes
        [("hostA", [⟨7, "q", "db", 100, .running⟩]),
         ("hostB", [⟨7, "q", "db", 90, .running⟩])]) 7 = some cmb ∧
      cmb.beginTime ∈ (hostPairs
        [("hostA", [⟨7, "q", "db", 100, .running⟩]),
         ("hostB", [⟨7, "q", "db", 90, .running⟩])]).map (fun p => p.2.beginTime) ∧
      ∀ t ∈ (hostPairs
        [("hostA", [⟨7, "q", "db", 100, .running⟩]),
         ("hostB", [⟨7, "q", "db", 90, .running⟩])]).map (fun p => p.2.beginTime),
        cmb.beginTime ≤ t :=
  (combine_beginTime_earliest
    [("hostA", [⟨7, "q", "db", 100, .running⟩]),
     ("hostB", [⟨7, "q", "db", 90, .running⟩])] 7 "q"
    (by decide) (by decide)).2

/-- Model of one output row of SHOW QUERIES (server.go:707-726).  The Go
`duration` column is rendered from `time.Now().UnixNano() - beginTime`, so it
is modelled by carrying `beginTime`; `hosts` models the joined host set. -/
structure QueryRow where
  qid : Nat
  stmt : String
  database : String
  beginTime : Int
  status : String
  hosts : List String
  deriving DecidableEq, Repr

/-- `toOutputRow` (server.go:707-726). -/
def toOutputRow (q : CombinedQueryExeInfo) (isKilledPart : Bool) : QueryRow :=
  ⟨q.qid, q.stmt, q.database, q.beginTime,
   if isKilledPart then "killed" else "running",
   if isKilledPart then q.killedHosts else q.runningHosts⟩

/-- The per-query contribution of the output loop of
`executeShowQueriesStatement` (server.go:2431-2441): `allKilled` is skipped,
`partiallyKilled` emits the killed row and then the running row, `allRunning`
emits the running row. -/
def rowsForQuery (q : CombinedQueryExeInfo) : List QueryRow :=
  match getCombinedRunState q with
  | .allKilled => []
  | .partiallyKilled => [toOutputRow q true, toOutputRow q false]
  | .allRunning => [toOutputRow q false]

instance : DecidableRel
    (fun (a b : CombinedQueryExeInfo) => a.beginTime ≤ b.beginTime) :=
  fun a b => Int.decLe a.beginTime b.beginTime

instance : IsTotal CombinedQueryExeInfo
    (fun a b => a.beginTime ≤ b.beginTime) :=
  ⟨fun a b => Int.le_total a.beginTime b.beginTime⟩

instance : IsTrans CombinedQueryExeInfo
    (fun a b => a.beginTime ≤ b.beginTime) :=
  ⟨fun _ _ _ => Int.le_trans⟩

/-- The `sort.Sort(sortedResult)` step (server.go:2420-2425) with
`Less = beginTime <`: modelled by the canonical sort ascending by begin
time (Go's unstable sort yields some such arrangement). -/
def sortCombined (infos : List CombinedQueryExeInfo) : List CombinedQueryExeInfo :=
  List.insertionSort (fun a b => a.beginTime ≤ b.beginTime) infos

/-- `executeShowQueriesStatement` row production (server.go:2420-2443), from
the combined map's values. -/
def showQueriesRows (infos : List CombinedQueryExeInfo) : List QueryRow :=
  (sortCombined infos).flatMap rowsForQuery

theorem mem_rowsForQuery_qid (a : CombinedQueryExeInfo) (r : QueryRow)
    (hr : r ∈ rowsForQuery a) : r.qid = a.qid := by
  rw [rowsForQuery] at hr
  rcases h : getCombinedRunState a with _ | _ | _ <;> rw [h] at hr <;>
    simp only [List.mem_cons, List.not_mem_nil, List.mem_singleton, or_false] at hr
  · subst hr
    rfl
  · rcases hr with rfl | rfl <;> rfl

theorem mem_rowsForQuery_beginTime (a : CombinedQueryExeInfo) (r : QueryRow)
    (hr : r ∈ rowsForQuery a) : r.beginTime = a.beginTime := by
  rw [rowsForQuery] at hr
  rcases h : getCombinedRunState a with _ | _ | _ <;> rw [h] at hr <;>
    simp only [List.mem_cons, List.not_mem_nil, List.mem_singleton, or_false] at hr
  · subst hr
    rfl
  · rcases hr with rfl | rfl <;> rfl

theorem rowsForQuery_pairwise (a : CombinedQueryExeInfo) :
    (rowsForQuery a).Pairwise (fun r1 r2 => r1.beginTime ≤ r2.beginTime) := by
  rw [rowsForQuery]
  rcases getCombinedRunState a with _ | _ | _ <;>
    simp [toOutputRow, List.pairwise_cons]

theorem pairwise_flatMap_rows (l : List CombinedQueryExeInfo)
    (hl : l.Pairwise (fun a b => a.beginTime ≤ b.beginTime)) :
    (l.flatMap rowsForQuery).Pairwise (fun r1 r2 => r1.beginTime ≤ r2.beginTime) := by
  induction l with
  | nil => simp
  | cons a rest ih =>
    rw [List.flatMap_cons, List.pairwise_append]
    rw [List.pairwise_cons] at hl
    refine ⟨rowsForQuery_pairwise a, ih hl.2, ?_⟩
    intro x hx y hy
    obtain ⟨b, hb, hyb⟩ := List.mem_flatMap.mp hy
    rw [mem_rowsForQuery_beginTime a x hx, mem_rowsForQuery_beginTime b y hyb]
    exact hl.1 b hb

theorem filter_flatMap_rows (l : List CombinedQueryExeInfo) (p : QueryRow → Bool) :
    (l.flatMap rowsForQuery).filter p =
      l.flatMap (fun a => (rowsForQuery a).filter p) := by
  induction l with
  | nil => rfl
  | cons a rest ih =>
    rw [List.flatMap_cons, List.flatMap_cons, List.filter_append, ih]

theorem rowsForQuery_filter_qid (a q : CombinedQueryExeInfo) :
    (rowsForQuery a).filter (fun r => r.qid == q.qid) =
      if a.qid = q.qid then rowsForQuery a else [] := by
  by_cases h : a.qid = q.qid
  · rw [if_pos h]
    refine List.filter_eq_self.mpr ?_
    intro r hr
    rw [mem_rowsForQuery_qid a r hr, h]
    simp
  · rw [if_neg h]
    refine List.filter_eq_nil_iff.mpr ?_
    intro r hr
    rw [mem_rowsForQuery_qid a r hr]
    simpa using h

theorem flatMap_unique_qid (q : CombinedQueryExeInfo) :
    ∀ l : List CombinedQueryExeInfo,
      (l.map (fun x => x.qid)).Nodup → q ∈ l →
      (l.flatMap (fun a => if a.qid = q.qid then rowsForQuery a else [])) =
        rowsForQuery q := by
  intro l
  induction l with
  | nil =>
    intro _ hq
    cases hq
  | cons a rest ih =>
    intro hnd hq
    rw [List.map_cons, List.nodup_cons] at hnd
    obtain ⟨hna, hnrest⟩ := hnd
    rw [List.flatMap_cons]
    rcases List.mem_cons.mp hq with rfl | hq'
    · rw [if_pos rfl]
      have hrest0 : rest.flatMap (fun a => if a.qid = q.qid then rowsForQuery a else []) = [] := by
        refine List.flatMap_eq_nil_iff.mpr ?_
        intro x hx
        rw [if_neg ?_]
        intro hxq
        exact hna (List.mem_map.mpr ⟨x, hx, hxq⟩)
      rw [hrest0, List.append_nil]
    · rw [if_neg ?_, List.nil_append]
      · exact ih hnrest hq'
      · intro haq
        refine hna ?_
        rw [haq]
        exact List.mem_map.mpr ⟨q, hq', rfl⟩

/-- Claim C5: among the SHOW QUERIES output rows, rows appear in ascending
begin-time order; a query whose running-host set is empty contributes no rows;
one with both killed and running hosts contributes exactly its "killed" row
followed by its "running" row; one with no killed hosts contributes exactly
its "running" row (query ids are unique, being the keys of the combined map). -/
theorem showQueriesRows_spec (infos : List CombinedQueryExeInfo)
    (hnodup : (infos.map (fun q => q.qid)).Nodup) :
    ((showQueriesRows infos).Pairwise (fun r1 r2 => r1.beginTime ≤ r2.beginTime)) ∧
    (∀ q ∈ infos,
      (showQueriesRows infos).filter (fun r => r.qid == q.qid) =
        (if q.runningHosts.length = 0 then []
         else if 0 < q.killedHosts.length then
           [toOutputRow q true, toOutputRow q false]
         else [toOutputRow q false])) := by
  have hperm := List.perm_insertionSort
    (fun (a b : CombinedQueryExeInfo) => a.beginTime ≤ b.beginTime) infos
  constructor
  · refine pairwise_flatMap_rows _ ?_
    exact List.sorted_insertionSort _ infos
  · intro q hq
    rw [showQueriesRows, filter_flatMap_rows]
    have hfun : (fun a => (rowsForQuery a).filter (fun r => r.qid == q.qid)) =
        (fun a => if a.qid = q.qid then rowsForQuery a else []) :=
      funext (fun a => rowsForQuery_filter_qid a q)
    rw [hfun]
    have hsnd : ((sortCombined infos).map (fun x => x.qid)).Nodup :=
      ((hperm.map (fun x => x.qid)).nodup_iff).mpr hnodup
    have hsq : q ∈ sortCombined infos := hperm.mem_iff.mpr hq
    rw [flatMap_unique_qid q (sortCombined infos) hsnd hsq]
    rw [rowsForQuery, getCombinedRunState]
    by_cases h1 : q.runningHosts.length = 0
    · simp [h1]
    · by_cases h2 : 0 < q.killedHosts.length
      · simp [h1, h2]
      · simp [h1, h2]

theorem showQueriesRows_spec_witness :
    ((showQueriesRows
      [⟨1, "q1", "db", 90, ["hostB"], ["hostA"]⟩,
       ⟨2, "q2", "db", 100, ["hostA"], []⟩]).Pairwise
        (fun r1 r2 => r1.beginTime ≤ r2.beginTime)) ∧
    (showQueriesRows
      [⟨1, "q1", "db", 90, ["hostB"], ["hostA"]⟩,
       ⟨2, "q2", "db", 100, ["hostA"], []⟩]).filter
        (fun r => r.qid == (1 : Nat)) =
      [toOutputRow ⟨1, "q1", "db", 90, ["hostB"], ["hostA"]⟩ true,
       toOutputRow ⟨1, "q1", "db", 90, ["hostB"], ["hostA"]⟩ false] := by
  have h := showQueriesRows_spec
    [⟨1, "q1", "db", 90, ["hostB"], ["hostA"]⟩,
     ⟨2, "q2", "db", 100, ["hostA"], []⟩] (by decide)
  refine ⟨h.1, ?_⟩
  have h2 := h.2 ⟨1, "q1", "db", 90, ["hostB"], ["hostA"]⟩ (by decide)
  simpa using h2
